import Mathlib

/-!
Shallow embedding of `recommendation_service.py`, a FastAPI recommendation
service that blends a precomputed ("offline") ranked list with a freshly
computed ("online") ranked list.

Modelling conventions:
* `ItemId` and `UserId` are Python ints, modelled as `Int`.
* Similarity scores are Python floats; the code only ever compares them
  (in `sorted(..., key=lambda x: x[1], reverse=True)`), never does
  arithmetic on them, so they are modelled as `ℚ` with its linear order.
* Python list slicing `l[:k]` (which, for negative `k`, drops the last
  `|k|` elements rather than raising) is modelled by `pySlice`.
* Exceptions are modelled with `Except PyErr`; the two outbound HTTP
  lookups of the online path are passed in as oracles so that their
  success, failure and payloads can be quantified over.
* The pandas personal table (`set_index("user_id")` + `.loc[user_id]` +
  `["item_id"].to_list()`) is modelled as an association list from user id
  to the ranked item list of that user; `.loc` on a missing key raises
  `KeyError`, modelled by the lookup returning `none`.
-/

/-- Python exceptions that the embedded fragments can raise. -/
inductive PyErr where
  /-- A `TypeError` raised by subscripting `None` (an unloaded table). -/
  | typeError : PyErr
  /-- a failed outbound HTTP request (`requests` raising, bad JSON, ...). -/
  | httpError : PyErr
  deriving DecidableEq

/-- Python list slicing `l[:k]`: for `k ≥ 0` the first `k` elements, for
`k < 0` everything but the last `|k|` elements (and `[]` when `|k|` exceeds
the length).  No exception is ever raised. -/
def pySlice {α : Type} (l : List α) (k : Int) : List α :=
  if 0 ≤ k then l.take k.toNat else l.take ((l.length : Int) + k).toNat

/-- State of the `Recommendations` class: `_recs = {"personal": …,
"default": …}` (each `None` until `load`ed) and the two usage counters in
`_stats`. -/
structure Recommendations where
  personal : Option (List (Int × List Int))
  default : Option (List Int)
  request_personal_count : Nat
  request_default_count : Nat
  deriving DecidableEq

/-- Model of `self._recs["personal"].loc[user_id]` followed by
`["item_id"].to_list()`: the ranked item list of `user_id`, or `none` when
pandas raises `KeyError`. -/
def lookupPersonal (tbl : List (Int × List Int)) (user_id : Int) :
    Option (List Int) :=
  (tbl.find? (fun p => p.1 == user_id)).map (fun p => p.2)

/-- Model of `Recommendations.get(user_id, k)` (lines 32–48).  The `try` block looks
the user up in the personal table; `except KeyError` falls back to the
default table; the bare `except` (reached when the personal table itself is
`None`) logs and returns `[]`.  An exception raised *inside* the
`except KeyError` handler — subscripting a `None` default table — is NOT
caught by the sibling bare `except` and propagates (Python semantics), which
is why that branch returns `Except.error`.  The function returns the
result together with the post-call state. -/
def Recommendations.get (s : Recommendations) (user_id : Int)
    (k : Int) : Except PyErr (List Int) × Recommendations :=
  match s.personal with
  | none => (Except.ok [], s)
  | some tbl =>
    match lookupPersonal tbl user_id with
    | some recs =>
        (Except.ok (pySlice recs k),
         { s with request_personal_count := s.request_personal_count + 1 })
    | none =>
        match s.default with
        | some recs =>
            (Except.ok (pySlice recs k),
             { s with request_default_count := s.request_default_count + 1 })
        | none => (Except.error PyErr.typeError, s)

/-- Loop state of `dedup_ids`: `seen` is the set of already-kept ids (only
membership is ever used, so a list models the Python `set`). -/
def dedupAux (seen : List Int) : List Int → List Int
  | [] => []
  | a :: as =>
      if a ∈ seen then dedupAux seen as else a :: dedupAux (a :: seen) as

/-- Model of `dedup_ids(ids)` (lines 100–107): keep only the first occurrence of
each id, preserving order. -/
def dedup_ids (ids : List Int) : List Int :=
  dedupAux [] ids

/-- One insertion step of a stable descending-by-score sort: the new pair
goes in front of the first already-placed pair whose score is `≤` its own,
i.e. after every earlier-accumulated pair with an equal or larger score. -/
def insertScored (p : Int × ℚ) : List (Int × ℚ) → List (Int × ℚ)
  | [] => [p]
  | q :: qs => if q.2 ≤ p.2 then p :: q :: qs else q :: insertScored p qs

/-- The Python built-in `sorted(combined, key=lambda x: x[1], reverse=True)`:
a stable sort by score descending (equal scores keep their original
relative order), realised as a stable insertion sort. -/
def sortScoresDesc : List (Int × ℚ) → List (Int × ℚ)
  | [] => []
  | p :: ps => insertScored p (sortScoresDesc ps)

/-- The accumulation loop of `recommendations_online` (lines 124–132):
for each event item id, fetch its similar items and append
(`items += …; scores += …`).  A failing similarity call raises out of the
loop, aborting the request. -/
def accumSimilar (similar : Int → Except PyErr (List Int × List ℚ)) :
    List Int → Except PyErr (List Int × List ℚ)
  | [] => Except.ok ([], [])
  | e :: es =>
    match similar e with
    | Except.error err => Except.error err
    | Except.ok (its, scs) =>
      match accumSimilar similar es with
      | Except.error err => Except.error err
      | Except.ok (its2, scs2) => Except.ok (its ++ its2, scs ++ scs2)

/-- Model of `recommendations_online(user_id, k)` (lines 109–142).  `events` is the
outcome of the Recent-Activity Lookup (the `events_store` POST — there is
no `try`/`except` here, so its failure propagates), `similar` the
Similarity Lookup oracle.  `zip`, the stable descending sort, projection to
ids, `dedup_ids` and `[:k]` follow the source lines. -/
def recommendations_online (events : Except PyErr (List Int))
    (similar : Int → Except PyErr (List Int × List ℚ)) (k : Int) :
    Except PyErr (List Int) :=
  match events with
  | Except.error e => Except.error e
  | Except.ok evs =>
    match accumSimilar similar evs with
    | Except.error e => Except.error e
    | Except.ok (items, scores) =>
      let combined := items.zip scores
      let combined2 := (sortScoresDesc combined).map Prod.fst
      let recs := dedup_ids combined2
      Except.ok (pySlice recs k)

/-- The raw blended sequence of `recommendations` (lines 156–168): the
`for i in range(min_length)` loop appends `recs_offline[i]` then
`recs_online[i]` (captured by `zip`, which pairs exactly the first
`min_length` positions), then each `if` appends the tail of the longer
list. -/
def recsBlendedRaw (recs_offline recs_online : List Int) : List Int :=
  let min_length := min recs_offline.length recs_online.length
  let blended := (recs_offline.zip recs_online).flatMap (fun p => [p.1, p.2])
  let blended :=
    if recs_offline.length > min_length
    then blended ++ recs_offline.drop min_length else blended
  let blended :=
    if recs_online.length > min_length
    then blended ++ recs_online.drop min_length else blended
  blended

/-- Lines 156–174 of `recommendations`: interleave, dedup, truncate to `k`. -/
def recsBlended (recs_offline recs_online : List Int) (k : Int) : List Int :=
  pySlice (dedup_ids (recsBlendedRaw recs_offline recs_online)) k

/-- Model of `recommendations(user_id, k)` (lines 144–176): call the offline
endpoint (whose exception, if any, propagates), then the online endpoint
(likewise), then blend.  Returns the result with the post-call store
state. -/
def recommendations (s : Recommendations) (events : Except PyErr (List Int))
    (similar : Int → Except PyErr (List Int × List ℚ)) (user_id : Int)
    (k : Int) : Except PyErr (List Int) × Recommendations :=
  match Recommendations.get s user_id k with
  | (Except.error e, s2) => (Except.error e, s2)
  | (Except.ok recs_offline, s2) =>
    match recommendations_online events similar k with
    | Except.error e => (Except.error e, s2)
    | Except.ok recs_online =>
        (Except.ok (recsBlended recs_offline recs_online k), s2)

/-- A Similarity Lookup oracle that always answers with no candidates. -/
def noSimilar : Int → Except PyErr (List Int × List ℚ) :=
  fun _ => Except.ok ([], [])

/-- Modelled from the words of the spec (§4.3 steps 2–3), for comparison with
`recsBlendedRaw`: strict alternation offline-first while both lists have
elements, then the remainder of the longer list in its original order. -/
def specInterleave : List Int → List Int → List Int
  | [], ns => ns
  | o :: os, [] => o :: os
  | o :: os, n :: ns => o :: n :: specInterleave os ns

/-! ## Lemmas about `dedup_ids` -/

theorem dedupAux_sublist (seen : List Int) (l : List Int) :
    List.Sublist (dedupAux seen l) l := by
  induction l generalizing seen with
  | nil => simp [dedupAux]
  | cons a as ih =>
    unfold dedupAux
    split
    · exact (ih seen).cons a
    · exact (ih (a :: seen)).cons₂ a

theorem mem_dedupAux {a : Int} {seen l : List Int} :
    a ∈ dedupAux seen l ↔ a ∈ l ∧ a ∉ seen := by
  induction l generalizing seen with
  | nil => simp [dedupAux]
  | cons b bs ih =>
    unfold dedupAux
    by_cases hb : b ∈ seen
    · simp only [if_pos hb, ih, List.mem_cons]
      constructor
      · exact fun h => ⟨Or.inr h.1, h.2⟩
      · rintro ⟨h | h, hs⟩
        · exact absurd (h ▸ hb) hs
        · exact ⟨h, hs⟩
    · simp only [if_neg hb, List.mem_cons, ih]
      constructor
      · rintro (h | ⟨h1, h2⟩)
        · exact ⟨Or.inl h, h ▸ hb⟩
        · exact ⟨Or.inr h1, fun hs => h2 (Or.inr hs)⟩
      · rintro ⟨h | h, hs⟩
        · exact Or.inl h
        · by_cases hab : a = b
          · exact Or.inl hab
          · exact Or.inr ⟨h, by simp [hab, hs]⟩

theorem nodup_dedupAux (seen : List Int) (l : List Int) :
    (dedupAux seen l).Nodup := by
  induction l generalizing seen with
  | nil => simp [dedupAux]
  | cons b bs ih =>
    unfold dedupAux
    split
    · exact ih seen
    · refine List.nodup_cons.2 ⟨fun hmem => ?_, ih (b :: seen)⟩
      exact (mem_dedupAux.1 hmem).2 (List.mem_cons_self b seen)

theorem indexOf_dedupAux_lt_iff {seen l : List Int} {a b : Int}
    (ha : a ∈ l) (hb : b ∈ l) (ha' : a ∉ seen) (hb' : b ∉ seen) :
    (List.indexOf a (dedupAux seen l) < List.indexOf b (dedupAux seen l)) ↔
      List.indexOf a l < List.indexOf b l := by
  induction l generalizing seen with
  | nil => cases ha
  | cons c cs ih =>
    unfold dedupAux
    by_cases hc : c ∈ seen
    · rw [if_pos hc]
      have hac : a ≠ c := fun h => ha' (h ▸ hc)
      have hbc : b ≠ c := fun h => hb' (h ▸ hc)
      have ha2 : a ∈ cs := (List.mem_cons.1 ha).resolve_left hac
      have hb2 : b ∈ cs := (List.mem_cons.1 hb).resolve_left hbc
      rw [ih ha2 hb2 ha' hb',
        List.indexOf_cons_ne cs (Ne.symm hac),
        List.indexOf_cons_ne cs (Ne.symm hbc)]
      exact (Nat.succ_lt_succ_iff).symm
    · rw [if_neg hc]
      by_cases hac : a = c
      · subst hac
        rw [List.indexOf_cons_self, List.indexOf_cons_self]
        by_cases hba : b = a
        · subst hba; simp
        · rw [List.indexOf_cons_ne _ (Ne.symm hba),
            List.indexOf_cons_ne _ (Ne.symm hba)]
          simp [Nat.succ_pos]
      · by_cases hbc : b = c
        · subst hbc
          rw [List.indexOf_cons_self, List.indexOf_cons_self,
            List.indexOf_cons_ne _ (Ne.symm hac),
            List.indexOf_cons_ne _ (Ne.symm hac)]
          simp
        · have ha2 : a ∈ cs := (List.mem_cons.1 ha).resolve_left hac
          have hb2 : b ∈ cs := (List.mem_cons.1 hb).resolve_left hbc
          have ha3 : a ∉ c :: seen := by simp [hac, ha']
          have hb3 : b ∉ c :: seen := by simp [hbc, hb']
          rw [List.indexOf_cons_ne _ (Ne.symm hac),
            List.indexOf_cons_ne _ (Ne.symm hbc),
            List.indexOf_cons_ne _ (Ne.symm hac),
            List.indexOf_cons_ne _ (Ne.symm hbc),
            Nat.succ_lt_succ_iff, Nat.succ_lt_succ_iff]
          exact ih ha2 hb2 ha3 hb3

theorem dedupAux_eq_self {seen l : List Int} (hl : l.Nodup)
    (hd : ∀ a ∈ l, a ∉ seen) : dedupAux seen l = l := by
  induction l generalizing seen with
  | nil => simp [dedupAux]
  | cons b bs ih =>
    unfold dedupAux
    rw [if_neg (hd b (List.mem_cons_self b bs))]
    congr 1
    refine ih (List.nodup_cons.1 hl).2 (fun a ha => ?_)
    intro hmem
    rcases List.mem_cons.1 hmem with h | h
    · exact (List.nodup_cons.1 hl).1 (h ▸ ha)
    · exact hd a (List.mem_cons_of_mem b ha) h

/-- Claim C5: `dedup_ids l` is a subsequence of `l` that keeps exactly the
first occurrence of each distinct id (same members, no duplicates), its
length is at most that of `l`, and the relative order of (first
occurrences of) any two members is preserved. -/
theorem dedup_ids_first_occurrence_spec :
    ∀ l : List Int,
      List.Sublist (dedup_ids l) l ∧
      (dedup_ids l).Nodup ∧
      (dedup_ids l).length ≤ l.length ∧
      (∀ a, a ∈ dedup_ids l ↔ a ∈ l) ∧
      (∀ a b, a ∈ l → b ∈ l →
        (List.indexOf a (dedup_ids l) < List.indexOf b (dedup_ids l) ↔
          List.indexOf a l < List.indexOf b l)) := by
  intro l
  refine ⟨dedupAux_sublist [] l, nodup_dedupAux [] l,
    (dedupAux_sublist [] l).length_le, fun a => ?_, fun a b ha hb => ?_⟩
  · simpa [dedup_ids] using @mem_dedupAux a [] l
  · exact indexOf_dedupAux_lt_iff ha hb (List.not_mem_nil a) (List.not_mem_nil b)

/-- Witness for C5: the general theorem instantiated at `[1, 2, 1, 3]`
with the member order-preservation part applied to `2` and `3`. -/
theorem dedup_ids_first_occurrence_spec_witness :
    List.Sublist (dedup_ids [1, 2, 1, 3]) [1, 2, 1, 3] ∧
    ((2 : Int) ∈ ([1, 2, 1, 3] : List Int) ∧
      (3 : Int) ∈ ([1, 2, 1, 3] : List Int)) ∧
    (List.indexOf 2 (dedup_ids [1, 2, 1, 3]) <
        List.indexOf 3 (dedup_ids [1, 2, 1, 3]) ↔
      List.indexOf (2 : Int) [1, 2, 1, 3] < List.indexOf 3 [1, 2, 1, 3]) :=
  ⟨(dedup_ids_first_occurrence_spec [1, 2, 1, 3]).1,
   ⟨by decide, by decide⟩,
   (dedup_ids_first_occurrence_spec [1, 2, 1, 3]).2.2.2.2 2 3
     (by decide) (by decide)⟩

/-- Claim C9: `dedup_ids` is idempotent. -/
theorem dedup_ids_idempotent :
    ∀ l : List Int, dedup_ids (dedup_ids l) = dedup_ids l := by
  intro l
  exact dedupAux_eq_self (nodup_dedupAux [] l) (by simp)

/-! ## The blended sequence is the interleaving of the spec -/

theorem recsBlendedRaw_cons (o n : Int) (os ns : List Int) :
    recsBlendedRaw (o :: os) (n :: ns) = o :: n :: recsBlendedRaw os ns := by
  simp only [recsBlendedRaw, List.zip_cons_cons, List.flatMap_cons,
    List.length_cons, Nat.succ_min_succ, List.drop_succ_cons, gt_iff_lt,
    Nat.add_lt_add_iff_right, List.cons_append, List.flatMap_nil,
    List.append_nil]
  by_cases h1 : min os.length ns.length < os.length <;>
    by_cases h2 : min os.length ns.length < ns.length <;>
      simp [h1, h2, List.cons_append]

theorem recsBlendedRaw_eq_specInterleave (recs_offline recs_online : List Int) :
    recsBlendedRaw recs_offline recs_online =
      specInterleave recs_offline recs_online := by
  induction recs_offline generalizing recs_online with
  | nil => cases recs_online <;> simp [recsBlendedRaw, specInterleave]
  | cons o os ih =>
    cases recs_online with
    | nil => simp [recsBlendedRaw, specInterleave]
    | cons n ns => rw [recsBlendedRaw_cons, ih, specInterleave]

/-- Claim C1: for every offline list, online list and `k ≥ 0`, the blend of
`recommendations` is exactly the strict offline-first alternation of the spec up
to the shorter length, followed by the remainder of the longer list, then
first-occurrence deduplication, then truncation to `k`; in particular
offline `[1, 2, 3]`, online `[4, 5]`, `k = 3` yields `[1, 4, 2]`. -/
theorem recommendations_blend_interleave_spec :
    (∀ (recs_offline recs_online : List Int) (k : Int), 0 ≤ k →
      recsBlended recs_offline recs_online k =
        (dedup_ids (specInterleave recs_offline recs_online)).take k.toNat) ∧
    recsBlended [1, 2, 3] [4, 5] 3 = [1, 4, 2] := by
  constructor
  · intro recs_offline recs_online k hk
    rw [recsBlended, recsBlendedRaw_eq_specInterleave, pySlice, if_pos hk]
  · decide

/-- Witness for C1 at the concrete case of the spec (`k = 10`). -/
theorem recommendations_blend_interleave_spec_witness :
    (0 : Int) ≤ 10 ∧
    recsBlended [1, 2, 3] [4, 5] 10 =
      (dedup_ids (specInterleave [1, 2, 3] [4, 5])).take (10 : Int).toNat :=
  ⟨by decide,
   recommendations_blend_interleave_spec.1 [1, 2, 3] [4, 5] 10 (by decide)⟩

/-! ## Length bound -/

theorem pySlice_length_le {α : Type} (l : List α) {k : Int} (hk : 0 ≤ k) :
    ((pySlice l k).length : Int) ≤ k := by
  rw [pySlice, if_pos hk]
  calc ((l.take k.toNat).length : Int) ≤ (k.toNat : Int) := by
        exact_mod_cast (List.length_take k.toNat l) ▸ Nat.min_le_left _ _
    _ = k := Int.toNat_of_nonneg hk

/-- Claim C2: whenever the blended endpoint `recommendations` answers with
a list (no exception), that list has length at most `k`, for every store
state, lookup outcome and `k ≥ 0`. -/
theorem recommendations_length_le_k :
    ∀ (s : Recommendations) (events : Except PyErr (List Int))
      (similar : Int → Except PyErr (List Int × List ℚ))
      (user_id k : Int) (recs : List Int) (s2 : Recommendations),
      0 ≤ k →
      recommendations s events similar user_id k = (Except.ok recs, s2) →
      (recs.length : Int) ≤ k := by
  intro s events similar user_id k recs s2 hk h
  unfold recommendations at h
  cases hget : Recommendations.get s user_id k with
  | mk res s3 =>
    rw [hget] at h
    cases res with
    | error e => simp at h
    | ok recs_offline =>
      cases hon : recommendations_online events similar k with
      | error e => rw [hon] at h; simp at h
      | ok recs_online =>
        rw [hon] at h
        simp only [Prod.mk.injEq, Except.ok.injEq] at h
        rw [← h.1, recsBlended]
        exact pySlice_length_le _ hk

/-- Witness for C2: a concrete store and oracles, `k = 2`, output `[1, 2]`. -/
theorem recommendations_length_le_k_witness :
    (0 : Int) ≤ 2 ∧
    recommendations ⟨some [(7, [1, 2, 3])], some [5], 0, 0⟩ (Except.ok [])
        noSimilar 7 2 =
      (Except.ok [1, 2], ⟨some [(7, [1, 2, 3])], some [5], 1, 0⟩) ∧
    (([1, 2] : List Int).length : Int) ≤ 2 :=
  ⟨by decide, rfl,
   recommendations_length_le_k ⟨some [(7, [1, 2, 3])], some [5], 0, 0⟩
     (Except.ok []) noSimilar 7 2 [1, 2]
     ⟨some [(7, [1, 2, 3])], some [5], 1, 0⟩ (by decide) rfl⟩

/-! ## Offline store -/

/-- Claim C3: for `k ≥ 0`, a user with a personal entry `P` gets the
first `k` items of `P` in stored order and only the personal-hit counter moves, by
exactly 1; a user absent from the personal table (default list loaded) gets
the default list's first `k` items and only the default-hit counter moves,
by exactly 1. -/
theorem offline_get_personal_default_spec :
    ∀ (s : Recommendations) (tbl : List (Int × List Int)) (user_id k : Int),
      s.personal = some tbl → 0 ≤ k →
      (∀ P, lookupPersonal tbl user_id = some P →
        Recommendations.get s user_id k =
          (Except.ok (P.take k.toNat),
           { s with request_personal_count := s.request_personal_count + 1 })) ∧
      (∀ D, lookupPersonal tbl user_id = none → s.default = some D →
        Recommendations.get s user_id k =
          (Except.ok (D.take k.toNat),
           { s with request_default_count := s.request_default_count + 1 })) := by
  intro s tbl user_id k hp hk
  constructor
  · intro P hP
    unfold Recommendations.get
    rw [hp]
    simp [hP, pySlice, if_pos hk]
  · intro D hD hdef
    unfold Recommendations.get
    rw [hp]
    simp [hD, hdef, pySlice, if_pos hk]

/-- Witness for C3: both branches at a concrete store. -/
theorem offline_get_personal_default_spec_witness :
    Recommendations.get ⟨some [(7, [1, 2, 3])], some [9, 10], 5, 6⟩ 7 2 =
      (Except.ok [1, 2], ⟨some [(7, [1, 2, 3])], some [9, 10], 6, 6⟩) ∧
    Recommendations.get ⟨some [(7, [1, 2, 3])], some [9, 10], 5, 6⟩ 8 1 =
      (Except.ok [9], ⟨some [(7, [1, 2, 3])], some [9, 10], 5, 7⟩) := by
  constructor
  · exact (offline_get_personal_default_spec
      ⟨some [(7, [1, 2, 3])], some [9, 10], 5, 6⟩ [(7, [1, 2, 3])] 7 2 rfl
      (by decide)).1 [1, 2, 3] rfl
  · exact (offline_get_personal_default_spec
      ⟨some [(7, [1, 2, 3])], some [9, 10], 5, 6⟩ [(7, [1, 2, 3])] 8 1 rfl
      (by decide)).2 [9, 10] rfl rfl

/-- Claim C10: when the offline `get` answers through its catch-all
fallback (personal table unloaded, the only way its bare `except` is
reached), it returns `[]` with both counters untouched; and on every call —
every state, user and `k` — at most one of the two counters changes, and by
exactly 1. -/
theorem offline_get_counter_frame_spec :
    ∀ (s : Recommendations) (user_id k : Int),
      (s.personal = none →
        Recommendations.get s user_id k = (Except.ok [], s)) ∧
      (((Recommendations.get s user_id k).2.request_personal_count =
            s.request_personal_count ∧
          (Recommendations.get s user_id k).2.request_default_count =
            s.request_default_count) ∨
        ((Recommendations.get s user_id k).2.request_personal_count =
            s.request_personal_count + 1 ∧
          (Recommendations.get s user_id k).2.request_default_count =
            s.request_default_count) ∨
        ((Recommendations.get s user_id k).2.request_personal_count =
            s.request_personal_count ∧
          (Recommendations.get s user_id k).2.request_default_count =
            s.request_default_count + 1)) := by
  intro s user_id k
  constructor
  · intro h
    unfold Recommendations.get
    rw [h]
  · obtain ⟨p, d, cp, cd⟩ := s
    cases p with
    | none => left; exact ⟨rfl, rfl⟩
    | some tbl =>
      cases hl : lookupPersonal tbl user_id with
      | some P => right; left; simp [Recommendations.get, hl]
      | none =>
        cases d with
        | some D => right; right; simp [Recommendations.get, hl]
        | none => left; simp [Recommendations.get, hl]

/-- Witness for C10: the catch-all branch at a concrete unloaded store. -/
theorem offline_get_counter_frame_spec_witness :
    Recommendations.get ⟨none, some [1], 3, 4⟩ 7 5 =
      (Except.ok [], ⟨none, some [1], 3, 4⟩) :=
  (offline_get_counter_frame_spec ⟨none, some [1], 3, 4⟩ 7 5).1 rfl

/-! ## Negative `k` (C4) and lookup failures (C7, C8) -/

/-- Counterexample to C4 as stated: at `k = -1` the offline `get` returns a
normal (end-truncated) list, not an error, and the online path likewise
returns a list — negative `k` is not rejected. -/
theorem negative_k_not_rejected_counterexample :
    (Recommendations.get ⟨some [(7, [1, 2, 3])], some [9], 0, 0⟩ 7 (-1)).1 =
      Except.ok [1, 2] ∧
    recommendations_online (Except.ok []) noSimilar (-1) = Except.ok [] :=
  ⟨rfl, rfl⟩

/-- Claim C4 amended: `k < 0` is not rejected; the request-serving calls
apply Python slice semantics, so a user with personal entry `P` receives
`P` minus its last `|k|` elements, with the usual counter bump. -/
theorem negative_k_slice_semantics :
    ∀ (s : Recommendations) (tbl : List (Int × List Int)) (P : List Int)
      (user_id k : Int),
      k < 0 → s.personal = some tbl → lookupPersonal tbl user_id = some P →
      Recommendations.get s user_id k =
        (Except.ok (P.take ((P.length : Int) + k).toNat),
         { s with request_personal_count := s.request_personal_count + 1 }) := by
  intro s tbl P user_id k hk hp hP
  unfold Recommendations.get
  rw [hp]
  simp [hP, pySlice, not_le.2 hk]

/-- Witness for the amended C4 at `k = -1`. -/
theorem negative_k_slice_semantics_witness :
    Recommendations.get ⟨some [(7, [1, 2, 3])], some [9], 0, 0⟩ 7 (-1) =
      (Except.ok [1, 2], ⟨some [(7, [1, 2, 3])], some [9], 1, 0⟩) :=
  negative_k_slice_semantics ⟨some [(7, [1, 2, 3])], some [9], 0, 0⟩
    [(7, [1, 2, 3])] [1, 2, 3] 7 (-1) (by decide) rfl rfl

/-- Counterexample to C7 as stated: a failing Recent-Activity Lookup does
not yield an empty list — the failure propagates out of the online path. -/
theorem online_lookup_failure_counterexample :
    recommendations_online (Except.error PyErr.httpError) noSimilar 10 =
      Except.error PyErr.httpError ∧
    recommendations_online (Except.error PyErr.httpError) noSimilar 10 ≠
      Except.ok [] :=
  ⟨rfl, by intro h; exact Except.noConfusion h⟩

/-- Claim C7 amended: there is no handler around the Recent-Activity
Lookup, so its failure propagates to the caller unchanged; only an *empty*
(but successful) event list yields the empty RankedList. -/
theorem online_lookup_failure_propagates :
    ∀ (e : PyErr) (similar : Int → Except PyErr (List Int × List ℚ))
      (k : Int),
      recommendations_online (Except.error e) similar k = Except.error e ∧
      recommendations_online (Except.ok []) similar k = Except.ok [] := by
  intro e similar k
  refine ⟨rfl, ?_⟩
  simp [recommendations_online, accumSimilar, sortScoresDesc, dedup_ids,
    dedupAux, pySlice]

/-- Claim C8 (code bug): with the personal table loaded but the user absent
and the default table unloaded, `get` does *not* return `[]` — the
`TypeError` raised inside the `except KeyError` handler escapes (a sibling
`except` clause does not catch it), aborting the request; counters are left
unchanged. -/
theorem offline_get_missing_default_raises :
    Recommendations.get ⟨some [(5, [1])], none, 0, 0⟩ 7 10 =
      (Except.error PyErr.typeError, ⟨some [(5, [1])], none, 0, 0⟩) :=
  rfl

/-! ## The online sort: descending by score, stable on ties (C6) -/

theorem mem_insertScored {a p : Int × ℚ} {l : List (Int × ℚ)} :
    a ∈ insertScored p l ↔ a = p ∨ a ∈ l := by
  induction l with
  | nil => simp [insertScored]
  | cons q qs ih =>
    rw [insertScored]
    split
    · simp [List.mem_cons]
    · simp only [List.mem_cons, ih]
      tauto

theorem insertScored_sorted (p : Int × ℚ) {l : List (Int × ℚ)}
    (hl : l.Pairwise (fun a b => b.2 ≤ a.2)) :
    (insertScored p l).Pairwise (fun a b => b.2 ≤ a.2) := by
  induction l with
  | nil => simp [insertScored]
  | cons q qs ih =>
    rw [insertScored]
    have hq := List.pairwise_cons.1 hl
    split
    · rename_i h
      refine List.Pairwise.cons (fun a ha => ?_) hl
      rcases List.mem_cons.1 ha with rfl | ha2
      · exact h
      · exact le_trans (hq.1 a ha2) h
    · rename_i h
      refine List.Pairwise.cons (fun a ha => ?_) (ih hq.2)
      rcases mem_insertScored.1 ha with rfl | ha2
      · exact le_of_lt (not_le.1 h)
      · exact hq.1 a ha2

theorem sortScoresDesc_sorted (l : List (Int × ℚ)) :
    (sortScoresDesc l).Pairwise (fun a b => b.2 ≤ a.2) := by
  induction l with
  | nil => simp [sortScoresDesc]
  | cons p ps ih => exact insertScored_sorted p ih

theorem insertScored_perm (p : Int × ℚ) (l : List (Int × ℚ)) :
    (insertScored p l).Perm (p :: l) := by
  induction l with
  | nil => simp [insertScored]
  | cons q qs ih =>
    rw [insertScored]
    split
    · exact List.Perm.refl _
    · exact ((ih.cons q).trans (List.Perm.swap p q qs))

theorem sortScoresDesc_perm (l : List (Int × ℚ)) :
    (sortScoresDesc l).Perm l := by
  induction l with
  | nil => simp [sortScoresDesc]
  | cons p ps ih => exact (insertScored_perm p (sortScoresDesc ps)).trans (ih.cons p)

theorem filter_insertScored_of_sorted (p : Int × ℚ) {l : List (Int × ℚ)}
    (hl : l.Pairwise (fun a b => b.2 ≤ a.2)) (s : ℚ) :
    (insertScored p l).filter (fun q => q.2 = s) =
      if p.2 = s then p :: l.filter (fun q => q.2 = s)
      else l.filter (fun q => q.2 = s) := by
  induction l with
  | nil =>
    by_cases hp : p.2 = s <;> simp [insertScored, List.filter_cons, hp]
  | cons q qs ih =>
    rw [insertScored]
    have hq := List.pairwise_cons.1 hl
    split
    · rename_i h
      by_cases hp : p.2 = s <;> simp [List.filter_cons, hp]
    · rename_i h
      by_cases hqs : q.2 = s
      · have hps : ¬ p.2 = s := by
          intro hps
          have hlt : p.2 < q.2 := not_le.1 h
          rw [hps, hqs] at hlt
          exact absurd hlt (lt_irrefl s)
        simp [List.filter_cons, hqs, hps, ih hq.2]
      · simp [List.filter_cons, hqs, ih hq.2]

theorem sortScoresDesc_stable_filter (l : List (Int × ℚ)) (s : ℚ) :
    (sortScoresDesc l).filter (fun q => q.2 = s) =
      l.filter (fun q => q.2 = s) := by
  induction l with
  | nil => rfl
  | cons p ps ih =>
    rw [sortScoresDesc,
      filter_insertScored_of_sorted p (sortScoresDesc_sorted ps) s,
      List.filter_cons]
    by_cases hp : p.2 = s <;> simp [hp, ih]

/-- Claim C6: the online sort is descending by score and stable — it
permutes the accumulated pairs, and for each score value the pairs carrying
exactly that score appear in their original accumulation order; in
particular two seed items yielding `(11, 0.5)` and `(12, 0.5)` produce
`[11, 12]` through `recommendations_online`. -/
theorem online_sort_stable_tiebreak_spec :
    (∀ l : List (Int × ℚ),
      (sortScoresDesc l).Pairwise (fun a b => b.2 ≤ a.2) ∧
      (sortScoresDesc l).Perm l ∧
      (∀ s : ℚ, (sortScoresDesc l).filter (fun q => q.2 = s) =
        l.filter (fun q => q.2 = s))) ∧
    recommendations_online (Except.ok [101, 102])
      (fun item_id => if item_id = 101 then Except.ok ([11], [0.5])
        else Except.ok ([12], [0.5])) 10 = Except.ok [11, 12] := by
  constructor
  · intro l
    exact ⟨sortScoresDesc_sorted l, sortScoresDesc_perm l,
      fun s => sortScoresDesc_stable_filter l s⟩
  · norm_num [recommendations_online, accumSimilar, sortScoresDesc,
      insertScored, dedup_ids, dedupAux, pySlice]
